import Mathlib

/-!
Verification of the PIO servo controller (src/pio/pio_servo/pio_servo.py).

The repository runs two PIO programs on an RP2040. A trigger program
(servo_trigger, run at 10 kHz) clears and immediately re-raises IRQ 4 once
per 20 ms period and then counts down a preloaded register. A pulse program
(servo_prog, run at 1 MHz) waits for IRQ 4 to be observed clear, performs a
non-blocking FIFO pull whose empty case recycles the X register, raises its
pin for a base countdown (ISR preload) plus a variable countdown (X), then
drops the pin and waits again. The host class Servo feeds the FIFO with
int(free_pulse * n) and the module sweep loop drives two channels.

Conventions of the embedding: every PIO instruction costs one cycle; a
jmp(y_dec, l) countdown loop entered with counter n executes n + 1 cycles;
the implicit wrap costs nothing. Host Python floats are modelled as exact
rationals, and Python int() as truncation toward zero. Words put on the
FIFO are reduced modulo 2^32 as on the 32-bit hardware. The update channel
is modelled with a depth-one slot; this depth is taken from the design
document (section 3: mailbox, single slot), since the FIFO hardware itself
is not part of this repository.
-/

namespace PioServo

/-- Cycles consumed by the PIO countdown idiom label(l); jmp(y_dec, l) when
the counter register initially holds n: the jmp executes once for each value
n, n-1, ..., 1 (branch taken, post-decrement) and once more at 0 (fall
through), one cycle each. Used at lines 12-13, 25-26 and 29-30 of the
source. -/
def jmpDecCycles : Nat → Nat
  | 0 => 1
  | n + 1 => 1 + jmpDecCycles n

theorem jmpDecCycles_eq (n : Nat) : jmpDecCycles n = n + 1 := by
  induction n with
  | zero => rfl
  | succ n ih => simp [jmpDecCycles, ih]; omega

/-- StateMachine.put places a value on the 32-bit TX FIFO; an integer is
reduced modulo 2^32, so a negative host integer arrives as its
two-complement 32-bit word. -/
def put32 (v : ℤ) : Nat := (v % 4294967296).toNat

/-- Python int(q) truncates toward zero (line 77 of the source applies it to
free_pulse * n). Host floats are modelled as exact rationals. -/
def pyInt (q : ℚ) : ℤ := if 0 ≤ q then Int.floor q else Int.ceil q

theorem pyInt_of_nonneg {q : ℚ} (h : 0 ≤ q) : pyInt q = Int.floor q :=
  if_pos h

theorem pyInt_of_neg {q : ℚ} (h : q < 0) : pyInt q = Int.ceil q :=
  if_neg (not_le.mpr h)

theorem pyInt_intCast (z : ℤ) : pyInt ((z : ℚ)) = z := by
  by_cases h : 0 ≤ (z : ℚ)
  · rw [pyInt_of_nonneg h, Int.floor_intCast]
  · rw [pyInt_of_neg (not_le.mp h), Int.ceil_intCast]

/-- Target period of the trigger machine in milliseconds (line 41). -/
def trig_target : Nat := 20

/-- Clock frequency of the trigger machine in Hz (line 43). -/
def trig_frq : Nat := 10000

/-- Countdown constant preloaded into X of the trigger machine (line 45):
(trig_frq // 1000 * trig_target) - 4. -/
def trig_ctr : Nat := trig_frq / 1000 * trig_target - 4

/-- Instruction cycles of one iteration of servo_trigger (lines 8-13) with
X = x: irq(clear, 4), irq(4), mov(y, x), then the countdown loop; falling
off the end wraps to the top at no cost. Successive IRQ-clear assertions
are separated by exactly this many trigger cycles. -/
def triggerPeriodCycles (x : Nat) : Nat := 1 + 1 + 1 + jmpDecCycles x

/-- Registers of servo_prog that persist across periods, together with the
TX FIFO feeding pull(noblock). Modelled from the spec: the update channel
holds at most one pending word (design document section 3, single-slot
mailbox); the FIFO hardware itself is not part of this repository. -/
structure ServoRegs where
  x : Nat
  isr : Nat
  fifo : Option Nat
deriving DecidableEq

/-- Lines 21-22: pull(noblock) followed by mov(x, osr). A pending FIFO word
moves into OSR and is stashed in X; an empty FIFO copies X into OSR, so X is
left unchanged. -/
def pullNoblock (r : ServoRegs) : ServoRegs :=
  match r.fifo with
  | some v => { r with x := v, fifo := none }
  | none => r

/-- Cycles during which the pin is held active in one period: mov(y, isr)
with side-set 1 raises the pin (line 23), then the base countdown
(lines 25-26), mov(y, x) (line 28), the variable countdown (lines 29-30);
the pin drops when the wrap reaches wait(0, irq, 4) with side-set 0
(line 19). -/
def activeCycles (r : ServoRegs) : Nat :=
  1 + jmpDecCycles r.isr + 1 + jmpDecCycles r.x

theorem activeCycles_eq (r : ServoRegs) :
    activeCycles r = r.isr + r.x + 4 := by
  simp [activeCycles, jmpDecCycles_eq]; omega

theorem pullNoblock_isr (r : ServoRegs) : (pullNoblock r).isr = r.isr := by
  cases h : r.fifo <;> simp [pullNoblock, h]

/-- One period of servo_prog, entered at the transition out of the wait
(lines 19-31): the non-blocking read happens first, then the counted pulse.
Returns the registers left for the next period and the active cycle count of
this period. -/
def servoPeriod (r : ServoRegs) : ServoRegs × Nat :=
  (pullNoblock r, activeCycles (pullNoblock r))

/-- Registers and active duration of period k when the machine starts from r
and no put arrives during the run. -/
def runPeriods (r : ServoRegs) : Nat → ServoRegs × Nat
  | 0 => servoPeriod r
  | k + 1 => servoPeriod (runPeriods r k).1

theorem runPeriods_const (r : ServoRegs) (h : r.fifo = none) (k : Nat) :
    runPeriods r k = (r, activeCycles r) := by
  have hp : pullNoblock r = r := by simp [pullNoblock, h]
  induction k with
  | zero => simp [runPeriods, servoPeriod, hp]
  | succ k ih => simp [runPeriods, ih, servoPeriod, hp]

/-- StateMachine.put of the host value v into the FIFO (line 77). -/
def chanPut (r : ServoRegs) (v : ℤ) : ServoRegs :=
  { r with fifo := some (put32 v) }

theorem runPeriods_chanPut (r : ServoRegs) (v : ℤ) (k : Nat) :
    runPeriods (chanPut r v) k
      = (⟨put32 v, r.isr, none⟩, r.isr + put32 v + 4) := by
  induction k with
  | zero =>
      simp [runPeriods, servoPeriod, chanPut, pullNoblock, activeCycles_eq]
  | succ k ih =>
      simp [runPeriods, ih, servoPeriod, pullNoblock, activeCycles_eq]

/-- One period during which the supervisor issues a put after the period has
begun, in the base or variable hold: the write lands in the FIFO, but the
cycle count of the running pulse was already fixed by the pull at the start
of the period. -/
def servoPeriodMidWrite (r : ServoRegs) (v : ℤ) : ServoRegs × Nat :=
  (chanPut (pullNoblock r) v, activeCycles (pullNoblock r))

/-- Modelled from the spec: the update channel as a single-slot mailbox
(design document sections 3 and 4.3). slot is the pending unread word; last
is the value the reader retains, realised in the source by the X register
recycled through pull(noblock); mov(x, osr) at lines 21-22. -/
structure Channel where
  slot : Option Nat
  last : Nat
deriving DecidableEq

/-- Write side (StateMachine.put from Servo.pos, line 77): always succeeds,
replacing any pending unread word. -/
def Channel.write (c : Channel) (v : Nat) : Channel :=
  { c with slot := some v }

/-- Read side (pull(noblock); mov(x, osr), lines 21-22): a pending word is
returned and retained; an empty slot returns the retained value unchanged. -/
def Channel.read (c : Channel) : Nat × Channel :=
  match c.slot with
  | some v => (v, { slot := none, last := v })
  | none => (c.last, c)

/-- Clock frequency of the servo machine in Hz (line 62). -/
def baseFrq : Nat := 1000000

/-- Host-side state of one Servo channel. -/
structure ServoState where
  base_pulse : ℤ
  free_pulse : ℤ
  regs : ServoRegs
  active : Bool
deriving DecidableEq

/-- Lines 61-73: the constructor stores base_pulse = min_pulse and
free_pulse = max_pulse - min_pulse, preloads the ISR with the base width via
put, pull and mov(isr, osr), and starts the machine unconditionally. No
argument is checked, and period and frequency are fixed constants rather
than parameters. -/
def Servo.init (min_pulse max_pulse : ℤ) : ServoState :=
  { base_pulse := min_pulse
    free_pulse := max_pulse - min_pulse
    regs := { x := 0, isr := put32 min_pulse, fifo := none }
    active := true }

/-- Integer computed by Servo.pos (line 77): int(self.free_pulse * n). -/
def posValue (s : ServoState) (n : ℚ) : ℤ := pyInt ((s.free_pulse : ℚ) * n)

/-- Servo.pos (lines 75-77): put the computed word on the FIFO. -/
def Servo.pos (s : ServoState) (n : ℚ) : ServoState :=
  { s with regs := chanPut s.regs (posValue s n) }

/-- The demo channel of line 81: Servo(1, 16, 1000, 2000). -/
def sDemo : ServoState := Servo.init 1000 2000

/-- A channel with free_pulse = 10, used to exhibit the rounding mode of
Servo.pos on an exactly representable fraction. -/
def sTen : ServoState := Servo.init 1000 1010

/-- Fractions fed to Servo.pos by the module sweep loop (lines 84-91):
p in range(10 + 1), rescaled to p / 10. -/
def sweepFractions : List ℚ := (List.range 11).map (fun p : ℕ => (p : ℚ) / 10)

/-- Words written to one channel during one full sweep cycle. -/
def sweepWrites (s : ServoState) : List ℤ := sweepFractions.map (posValue s)

/-- Active durations of the first 25 periods after a single put of v: one
write per 500 ms sweep step, then periods with no further write. -/
def stepDurations (r : ServoRegs) (v : ℤ) : List Nat :=
  (List.range 25).map (fun k => (runPeriods (chanPut r v) k).2)

/-- Realized trigger period expressed in servo clock cycles, which at 1 MHz
are microseconds. -/
def periodUs : Nat := triggerPeriodCycles trig_ctr * (baseFrq / trig_frq)

/-- Periods of 20 ms elapsing during one 500 ms sweep step. -/
def periodsPerStep : Nat := 500 * 1000 / periodUs

/-- Servo cycles per trigger cycle (1 MHz against 10 kHz). -/
def servoPerTrig : Nat := baseFrq / trig_frq

theorem periodUs_eq : periodUs = 20000 := by
  norm_num [periodUs, triggerPeriodCycles, trig_ctr, trig_frq, trig_target,
    baseFrq, jmpDecCycles_eq]

theorem servoPerTrig_eq : servoPerTrig = 100 := by
  norm_num [servoPerTrig, baseFrq, trig_frq]

/-- Earliest servo tick at or after t at which IRQ 4 is observed clear: the
trigger holds the flag low for exactly one of its own instruction cycles,
from irq(clear, 4) to irq(4) (lines 9-10), at the start of each period. -/
def nextObserve (t : Nat) : Nat :=
  if t % periodUs < servoPerTrig then t else (t / periodUs + 1) * periodUs

/-- Length of one full servo_prog iteration in cycles: the completing wait,
pull(noblock), mov(x, osr), then the active phase; after that the machine is
back sampling the wait. -/
def servoIterCycles (r : ServoRegs) : Nat := 3 + activeCycles (pullNoblock r)

/-- Tick at which the servo machine leaves the wait for the k-th time, when
one full iteration takes D cycles; time is counted in servo cycles with
trigger assertions at multiples of periodUs. -/
def observeTimes (D : Nat) : Nat → Nat
  | 0 => 0
  | k + 1 => nextObserve (observeTimes D k + D)

theorem posValue_sDemo_eval (n : ℚ) (z : ℤ) (h : (1000 : ℚ) * n = (z : ℚ)) :
    posValue sDemo n = z := by
  rw [posValue, show ((sDemo.free_pulse : ℚ)) = 1000 by norm_num [sDemo, Servo.init],
    h, pyInt_intCast]

theorem sweepWrites_eval :
    sweepWrites sDemo
      = [0, 100, 200, 300, 400, 500, 600, 700, 800, 900, 1000] := by
  rw [sweepWrites, sweepFractions,
    show List.range 11 = [0, 1, 2, 3, 4, 5, 6, 7, 8, 9, 10] from rfl]
  simp only [List.map_cons, List.map_nil]
  rw [posValue_sDemo_eval _ 0 (by push_cast; norm_num),
    posValue_sDemo_eval _ 100 (by push_cast; norm_num),
    posValue_sDemo_eval _ 200 (by push_cast; norm_num),
    posValue_sDemo_eval _ 300 (by push_cast; norm_num),
    posValue_sDemo_eval _ 400 (by push_cast; norm_num),
    posValue_sDemo_eval _ 500 (by push_cast; norm_num),
    posValue_sDemo_eval _ 600 (by push_cast; norm_num),
    posValue_sDemo_eval _ 700 (by push_cast; norm_num),
    posValue_sDemo_eval _ 800 (by push_cast; norm_num),
    posValue_sDemo_eval _ 900 (by push_cast; norm_num),
    posValue_sDemo_eval _ 1000 (by push_cast; norm_num)]

/-- C1: the per-period non-blocking read always returns a value immediately:
a pending write is returned (and becomes the retained value), an empty slot
returns the value of the previous read with the state unchanged, so an
immediate re-read repeats it; and when no put ever arrives, every period of
servo_prog reproduces the active duration of the previous one. -/
theorem chan_read_retention (c d : Channel) (v : Nat) (r : ServoRegs)
    (k : Nat) (hc : c.slot = some v) (hd : d.slot = none)
    (hr : r.fifo = none) :
    (Channel.read c).1 = v
  ∧ (Channel.read c).2.last = v
  ∧ (Channel.read d).1 = d.last
  ∧ (Channel.read d).2 = d
  ∧ ((Channel.read c).2.read).1 = v
  ∧ (runPeriods r (k + 1)).2 = (runPeriods r k).2 := by
  refine ⟨?_, ?_, ?_, ?_, ?_, ?_⟩
  · simp [Channel.read, hc]
  · simp [Channel.read, hc]
  · simp [Channel.read, hd]
  · simp [Channel.read, hd]
  · simp [Channel.read, hc]
  · rw [runPeriods_const r hr, runPeriods_const r hr]

theorem chan_read_retention_inst :
    (Channel.read ⟨some 7, 3⟩).1 = 7
  ∧ (Channel.read ⟨some 7, 3⟩).2.last = 7
  ∧ (Channel.read ⟨none, 5⟩).1 = (⟨none, 5⟩ : Channel).last
  ∧ (Channel.read ⟨none, 5⟩).2 = ⟨none, 5⟩
  ∧ ((Channel.read ⟨some 7, 3⟩).2.read).1 = 7
  ∧ (runPeriods ⟨2, 10, none⟩ (0 + 1)).2 = (runPeriods ⟨2, 10, none⟩ 0).2 :=
  chan_read_retention ⟨some 7, 3⟩ ⟨none, 5⟩ 7 ⟨2, 10, none⟩ 0 rfl rfl rfl

/-- C2: a put issued while servo_prog is in the base or variable hold leaves
the duration of the pulse in progress unchanged, and the written word is
observed exactly at the next pull, so the following period runs for
base + new value + overhead cycles. -/
theorem glitch_free_update (r : ServoRegs) (v : ℤ) :
    (servoPeriodMidWrite r v).2 = (servoPeriod r).2
  ∧ (servoPeriod (servoPeriodMidWrite r v).1).2
      = r.isr + put32 v + 4 := by
  constructor
  · rfl
  · cases h : r.fifo <;>
      simp [servoPeriod, servoPeriodMidWrite, chanPut, pullNoblock,
        activeCycles_eq, h]

/-- C3: one iteration of servo_trigger takes x + 4 cycles for any countdown
value x, so the correction constant 4 subtracted at line 45 equals the fixed
overhead of the broadcast-and-loop sequence; with the programmed countdown
196 the realized period is exactly (trig_frq / 1000) * trig_target = 200
cycles, which at 10 kHz is 20 ms. -/
theorem trigger_period_exact :
    (∀ x : Nat, triggerPeriodCycles x = x + 4)
  ∧ trig_ctr = trig_frq / 1000 * trig_target - 4
  ∧ trig_ctr = 196
  ∧ triggerPeriodCycles trig_ctr = trig_frq / 1000 * trig_target
  ∧ triggerPeriodCycles trig_ctr = 200
  ∧ triggerPeriodCycles trig_ctr * 1000 / trig_frq = trig_target := by
  refine ⟨fun x => ?_, rfl, ?_, ?_, ?_, ?_⟩
  · simp [triggerPeriodCycles, jmpDecCycles_eq]; omega
  all_goals norm_num [triggerPeriodCycles, trig_ctr, trig_frq, trig_target,
    jmpDecCycles_eq]

/-- C5 counterexample: with the demo base of 1000 cycles and variable part
0, the pin is active for 1004 cycles in a period, not the claimed
basePulse + variablePulse = 1000 cycles. -/
theorem active_duration_cex :
    (servoPeriod ⟨0, 1000, none⟩).2 = 1004
  ∧ (servoPeriod ⟨0, 1000, none⟩).2 ≠ 1000 + 0 := by
  constructor <;>
    simp [servoPeriod, pullNoblock, activeCycles_eq]

/-- C5 amended: the active duration of a period is exactly
basePulse + variablePulse + 4 instruction cycles, the 4 being the fixed
overhead of mov(y, isr), the two loop fall-through cycles and mov(y, x);
hence for a variable part bounded by free it lies between basePulse + 4 and
basePulse + free + 4. -/
theorem active_duration_overhead (r : ServoRegs) (free : Nat)
    (h : (pullNoblock r).x ≤ free) :
    (servoPeriod r).2 = r.isr + (pullNoblock r).x + 4
  ∧ r.isr + 4 ≤ (servoPeriod r).2
  ∧ (servoPeriod r).2 ≤ r.isr + free + 4 := by
  have h1 : (servoPeriod r).2 = r.isr + (pullNoblock r).x + 4 := by
    rw [servoPeriod, activeCycles_eq, pullNoblock_isr]
  exact ⟨h1, by omega, by omega⟩

theorem active_duration_overhead_inst :
    (servoPeriod ⟨0, 1000, none⟩).2
      = (⟨0, 1000, none⟩ : ServoRegs).isr
          + (pullNoblock ⟨0, 1000, none⟩).x + 4
  ∧ (⟨0, 1000, none⟩ : ServoRegs).isr + 4 ≤ (servoPeriod ⟨0, 1000, none⟩).2
  ∧ (servoPeriod ⟨0, 1000, none⟩).2
      ≤ (⟨0, 1000, none⟩ : ServoRegs).isr + 1000 + 4 :=
  active_duration_overhead ⟨0, 1000, none⟩ 1000 (by decide)

/-- C6: a write always succeeds at once and overwrites any pending unread
word; after two writes with no read between them, the next read observes
only the second; and a read always returns a value (the pending word if any,
the retained value otherwise). -/
theorem update_channel_overwrite (c : Channel) (v w : Nat) :
    Channel.write c v = ⟨some v, c.last⟩
  ∧ Channel.write (Channel.write c v) w = ⟨some w, c.last⟩
  ∧ (Channel.read (Channel.write (Channel.write c v) w)).1 = w
  ∧ (Channel.read c).1 = c.slot.getD c.last := by
  obtain ⟨slot, last⟩ := c
  refine ⟨rfl, rfl, rfl, ?_⟩
  cases slot <;> simp [Channel.read]

/-- C7 counterexample: constructing a channel with min_pulse = 2000 greater
than max_pulse = 1000 is not rejected; the constructor returns a started
unit whose free_pulse is the negative value -1000. -/
theorem init_validation_cex :
    (Servo.init 2000 1000).active = true
  ∧ (Servo.init 2000 1000).free_pulse = -1000 := by
  constructor
  · rfl
  · norm_num [Servo.init]

/-- C7 amended: construction performs no validation at all: any pair of
pulse bounds is accepted, free_pulse is set to max - min (negative whenever
min exceeds max), and the state machine is started unconditionally; period
and frequency are fixed constants of the source, not checkable
parameters. -/
theorem init_no_validation (min_pulse max_pulse : ℤ)
    (h : max_pulse < min_pulse) :
    (Servo.init min_pulse max_pulse).active = true
  ∧ (Servo.init min_pulse max_pulse).free_pulse < 0
  ∧ (Servo.init min_pulse max_pulse).base_pulse = min_pulse := by
  refine ⟨rfl, ?_, rfl⟩
  simp only [Servo.init]
  omega

theorem init_no_validation_inst :
    (Servo.init 2000 1000).active = true
  ∧ (Servo.init 2000 1000).free_pulse < 0
  ∧ (Servo.init 2000 1000).base_pulse = 2000 :=
  init_no_validation 2000 1000 (by norm_num)

/-- C4 counterexample: with free_pulse = 10 and the exactly representable
fraction 7/8, the source computes int(10 * 7/8) = int(8.75) = 8 and writes
8, while nearest-integer rounding of 8.75 is 9; so Servo.pos does not write
round(freePulseMax * fraction). -/
theorem pos_rounding_cex :
    posValue sTen (7/8) = 8
  ∧ round (((sTen.free_pulse : ℚ)) * (7/8)) = 9
  ∧ (Servo.pos sTen (7/8)).regs.fifo = some 8
  ∧ posValue sTen (7/8) ≠ round (((sTen.free_pulse : ℚ)) * (7/8)) := by
  have hfree : ((sTen.free_pulse : ℚ)) = 10 := by norm_num [sTen, Servo.init]
  have h1 : posValue sTen (7/8) = 8 := by
    rw [posValue, hfree, pyInt_of_nonneg (by norm_num)]
    rw [Int.floor_eq_iff] <;> norm_num
  have h2 : round (((sTen.free_pulse : ℚ)) * (7/8)) = 9 := by
    rw [hfree, round_eq, Int.floor_eq_iff] <;> norm_num
  refine ⟨h1, h2, ?_, by rw [h1, h2]; norm_num⟩
  simp only [Servo.pos, chanPut, h1]
  decide

/-- C4 amended: Servo.pos computes int(free_pulse * fraction), which is
truncation toward zero and hence the floor whenever the product is
nonnegative, and writes exactly that value (as a 32-bit word) to the
channel. -/
theorem pos_truncation (s : ServoState) (n : ℚ)
    (h : 0 ≤ (s.free_pulse : ℚ) * n) :
    posValue s n = Int.floor ((s.free_pulse : ℚ) * n)
  ∧ Servo.pos s n
      = { s with regs :=
            { s.regs with fifo := some (put32 (posValue s n)) } } :=
  ⟨by rw [posValue, pyInt_of_nonneg h], rfl⟩

theorem pos_truncation_inst :
    posValue sDemo (1/2) = Int.floor ((sDemo.free_pulse : ℚ) * (1/2))
  ∧ Servo.pos sDemo (1/2)
      = { sDemo with regs :=
            { sDemo.regs with
                fifo := some (put32 (posValue sDemo (1/2))) } } :=
  pos_truncation sDemo (1/2) (by norm_num [sDemo, Servo.init])

/-- C8 counterexample: one full cycle of the sweep loop runs p over
range(10 + 1), eleven values, so the words written to the first channel take
eleven distinct values 0, 100, ..., 1000, not ten. -/
theorem sweep_steps_cex :
    sweepWrites sDemo
      = [0, 100, 200, 300, 400, 500, 600, 700, 800, 900, 1000]
  ∧ (sweepWrites sDemo).dedup.length = 11
  ∧ (sweepWrites sDemo).dedup.length ≠ 10 := by
  refine ⟨sweepWrites_eval, ?_, ?_⟩ <;> rw [sweepWrites_eval] <;> decide

/-- C8 amended: the sweep writes eleven distinct step widths per cycle
(fractions 0.0 to 1.0 inclusive in steps of 0.1), one write per 500 ms step
of 25 periods, and within a step the active duration is the same in all 25
periods: the first period consumes the written word and the following ones
retain it. -/
theorem sweep_step_widths :
    sweepWrites sDemo
      = [0, 100, 200, 300, 400, 500, 600, 700, 800, 900, 1000]
  ∧ (sweepWrites sDemo).dedup.length = 11
  ∧ periodsPerStep = 25
  ∧ ∀ (r : ServoRegs) (v : ℤ),
      stepDurations r v = List.replicate 25 (r.isr + put32 v + 4) := by
  refine ⟨sweepWrites_eval, ?_, ?_, ?_⟩
  · rw [sweepWrites_eval]; decide
  · norm_num [periodsPerStep, periodUs_eq]
  · intro r v
    rw [stepDurations, List.eq_replicate]
    constructor
    · simp
    · intro b hb
      rw [List.mem_map] at hb
      obtain ⟨k, _, hk⟩ := hb
      rw [runPeriods_chanPut] at hk
      exact hk.symm

/-- C9 counterexample: a unit with base 50 and variable part 0 completes a
full iteration in 57 cycles, less than the 20000-cycle period; but the
trigger holds IRQ 4 clear for 100 servo cycles, so the unit leaves the wait
a second time at tick 57, still inside the first period, and emits more
pulses than there are trigger assertions. -/
theorem fast_retrigger_cex :
    servoIterCycles ⟨0, 50, none⟩ < periodUs
  ∧ observeTimes (servoIterCycles ⟨0, 50, none⟩) 1 = 57
  ∧ observeTimes (servoIterCycles ⟨0, 50, none⟩) 1 < periodUs := by
  have hD : servoIterCycles ⟨0, 50, none⟩ = 57 := by
    norm_num [servoIterCycles, pullNoblock, activeCycles_eq]
  have hO : observeTimes 57 1 = 57 := by
    show nextObserve (observeTimes 57 0 + 57) = 57
    rw [show observeTimes 57 0 = 0 from rfl, nextObserve, periodUs_eq,
      servoPerTrig_eq]
    norm_num
  refine ⟨?_, ?_, ?_⟩
  · rw [hD, periodUs_eq]; norm_num
  · rw [hD, hO]
  · rw [hD, hO, periodUs_eq]; norm_num

/-- C9 amended: provided one full servo iteration takes at least one trigger
instruction cycle (100 servo cycles, the time IRQ 4 is held clear) and at
most one period, the machine leaves the wait exactly once per trigger
assertion, at the assertion tick: pulse count equals assertion count with no
period skipped. -/
theorem no_missed_periods (D : Nat) (h1 : servoPerTrig ≤ D)
    (h2 : D ≤ periodUs) (k : Nat) :
    observeTimes D k = periodUs * k := by
  induction k with
  | zero =>
      rw [Nat.mul_zero]
      rfl
  | succ k ih =>
      simp only [observeTimes, ih, nextObserve, periodUs_eq, servoPerTrig_eq]
      rw [periodUs_eq] at h2
      rw [servoPerTrig_eq] at h1
      split_ifs with h <;> omega

theorem no_missed_periods_inst :
    observeTimes (servoIterCycles ⟨0, 1000, none⟩) 1 = periodUs * 1 :=
  no_missed_periods (servoIterCycles ⟨0, 1000, none⟩)
    (by norm_num [servoIterCycles, pullNoblock, activeCycles_eq,
      servoPerTrig_eq])
    (by norm_num [servoIterCycles, pullNoblock, activeCycles_eq,
      periodUs_eq]) 1

/-- C10: a negative fraction that makes int(free_pulse * n) negative is put
on the channel as its two-complement 32-bit word 2^32 + v; the variable
countdown of the next period then runs for that word plus one cycles, which
at the 1 MHz servo clock is between 71 and 72 minutes, rather than a merely
short pulse. -/
theorem negative_pos_wraps (n : ℚ) (r : ServoRegs) (h1 : -1 ≤ n)
    (h2 : posValue sDemo n < 0) :
    ((put32 (posValue sDemo n) : ℤ) = 4294967296 + posValue sDemo n)
  ∧ jmpDecCycles (put32 (posValue sDemo n))
      = put32 (posValue sDemo n) + 1
  ∧ 71 * 60 * 1000000 < jmpDecCycles (put32 (posValue sDemo n))
  ∧ jmpDecCycles (put32 (posValue sDemo n)) < 72 * 60 * 1000000
  ∧ (servoPeriod (chanPut r (posValue sDemo n))).2
      = r.isr + put32 (posValue sDemo n) + 4 := by
  have hfree : ((sDemo.free_pulse : ℚ)) = 1000 := by
    norm_num [sDemo, Servo.init]
  have hq : (sDemo.free_pulse : ℚ) * n < 0 := by
    by_contra hcon
    push_neg at hcon
    rw [posValue, pyInt_of_nonneg hcon] at h2
    exact absurd h2 (not_lt.mpr (Int.floor_nonneg.mpr hcon))
  have hlow : -1000 ≤ posValue sDemo n := by
    have hqlow : ((-1000 : ℤ) : ℚ) ≤ (sDemo.free_pulse : ℚ) * n := by
      rw [hfree]
      have := mul_le_mul_of_nonneg_left h1 (by norm_num : (0:ℚ) ≤ 1000)
      push_cast
      linarith
    rw [posValue, pyInt_of_neg hq]
    calc (-1000 : ℤ) = ⌈((-1000 : ℤ) : ℚ)⌉ := (Int.ceil_intCast _).symm
      _ ≤ ⌈(sDemo.free_pulse : ℚ) * n⌉ := Int.ceil_mono hqlow
  refine ⟨?_, jmpDecCycles_eq _, ?_, ?_, ?_⟩
  · simp only [put32]
    omega
  · rw [jmpDecCycles_eq]
    simp only [put32]
    omega
  · rw [jmpDecCycles_eq]
    simp only [put32]
    omega
  · simp [servoPeriod, chanPut, pullNoblock, activeCycles_eq]

theorem negative_pos_wraps_inst :
    ((put32 (posValue sDemo (-1/2)) : ℤ)
        = 4294967296 + posValue sDemo (-1/2))
  ∧ jmpDecCycles (put32 (posValue sDemo (-1/2)))
      = put32 (posValue sDemo (-1/2)) + 1
  ∧ 71 * 60 * 1000000 < jmpDecCycles (put32 (posValue sDemo (-1/2)))
  ∧ jmpDecCycles (put32 (posValue sDemo (-1/2))) < 72 * 60 * 1000000
  ∧ (servoPeriod (chanPut ⟨0, 1000, none⟩ (posValue sDemo (-1/2)))).2
      = (⟨0, 1000, none⟩ : ServoRegs).isr
          + put32 (posValue sDemo (-1/2)) + 4 :=
  negative_pos_wraps (-1/2) ⟨0, 1000, none⟩ (by norm_num)
    (by rw [posValue_sDemo_eval (-1/2) (-500) (by push_cast; norm_num)]
        norm_num)

end PioServo
